import Mathlib

/-!
Verification of `tex2bib.py` (class `Tex2BibConverter`): a shallow embedding of
the citation-extraction, query-batching, token-resolution and reconciliation
logic, together with theorems settling the specification's claims.

Python strings are embedded as `List Char` (`PyStr`); the string primitives
used by the source (`str.find`, slicing with negative indices, `str.split`,
`str.strip`, `str.replace`) are embedded faithfully below.  The scanning loop
of `_extract_citations` is embedded with explicit fuel because the source's
`while` loop does not terminate on every input.
-/

abbrev PyStr := List Char

def pystr (s : String) : PyStr := s.data

/-- Python `str.strip` whitespace set (ASCII part, which is all the tool meets). -/
def pyWS (c : Char) : Bool :=
  c = ' ' || c = '\t' || c = '\n' || c = '\r' || c = '\x0b' || c = '\x0c'

/-- Clamp a Python index (possibly negative, meaning from-the-end) for slicing. -/
def pyIdx (len : Nat) (i : Int) : Nat :=
  if i < 0 then (len + i).toNat else min i.toNat len

/-- Python slice `l[a:b]`. -/
def pySlice (l : List α) (a b : Int) : List α :=
  (l.take (pyIdx l.length b)).drop (pyIdx l.length a)

/-- Python slice `l[a:]`. -/
def pySliceFrom (l : List α) (a : Int) : List α :=
  l.drop (pyIdx l.length a)

/-- First index at which `c` occurs, if any. -/
def findCharAux (c : Char) : PyStr → Option Nat
  | [] => none
  | a :: l => if a = c then some 0 else (findCharAux c l).map (· + 1)

/-- Python `line.find(c, start)` for a single-character needle: the least index
`≥ start` holding `c`, or `-1`. -/
def pyFindChar (l : PyStr) (c : Char) (start : Nat) : Int :=
  match findCharAux c (l.drop start) with
  | none => -1
  | some n => (start : Int) + n

/-- Whether `pat` occurs at the head of `l`. -/
def startsWithStr : PyStr → PyStr → Bool
  | [], _ => true
  | _ :: _, [] => false
  | a :: p, b :: l => a = b && startsWithStr p l

def findSubAux (pat : PyStr) : PyStr → Option Nat
  | [] => if pat.isEmpty then some 0 else none
  | a :: l => if startsWithStr pat (a :: l) then some 0 else (findSubAux pat l).map (· + 1)

/-- Python `l.find(pat)`: least index where `pat` occurs as a substring, or `-1`. -/
def pyFindSub (l pat : PyStr) : Int :=
  match findSubAux pat l with
  | none => -1
  | some n => n

/-- Python `l.split(c)` for a one-character separator. -/
def pySplitChar (c : Char) : PyStr → List PyStr
  | [] => [[]]
  | a :: l =>
    if a = c then [] :: pySplitChar c l
    else
      match pySplitChar c l with
      | [] => [[a]]
      | h :: t => (a :: h) :: t

/-- Python `l.strip()`. -/
def pyStrip (l : PyStr) : PyStr :=
  ((l.dropWhile pyWS).reverse.dropWhile pyWS).reverse

/-- Python `ref.replace('AA', 'A&A')` (tex2bib.py line 132): every
non-overlapping occurrence of `AA`, scanned left to right, becomes `A&A`. -/
def replaceAA : PyStr → PyStr
  | 'A' :: 'A' :: rest => 'A' :: '&' :: 'A' :: replaceAA rest
  | a :: rest => a :: replaceAA rest
  | [] => []

/-- Python `set.add`: the set of bibcodes, modelled as a duplicate-free list in
insertion order (the order is irrelevant: the source sorts the set afterwards). -/
def setAdd (s : List PyStr) (x : PyStr) : List PyStr :=
  if x ∈ s then s else s ++ [x]

/-- The literal `'\cite'` searched for by `_extract_citations` (line 122). -/
def citeMarker : PyStr := ['\\', 'c', 'i', 't', 'e']

/-- Body of the `for ref in refs` loop of `_extract_citations` (lines 128-133):
strip each comma-token, skip empty ones, apply the `AA` substitution, add to
the bibcode set. -/
def addRefs (acc : List PyStr) : List PyStr → List PyStr
  | [] => acc
  | ref :: rest =>
    let r := pyStrip ref
    if r = [] then addRefs acc rest
    else addRefs (setAdd acc (replaceAA r)) rest

/-- The `while i > -1` loop of `_extract_citations` (lines 122-136), with fuel:
find `'\cite'`; then the next `'{'` and `'}'` from there; split the slice
between them on commas and add the tokens; continue on the rest of the line.
`none` means the fuel ran out (the source loop does not always terminate). -/
def scanLine : Nat → PyStr → List PyStr → Option (List PyStr)
  | 0, _, _ => none
  | fuel + 1, line, acc =>
    let i := pyFindSub line citeMarker
    if i > -1 then
      let j : Int := pyFindChar line '\x7b' i.toNat + 1
      let k : Int := pyFindChar line '\x7d' i.toNat
      let refs := pySplitChar ',' (pySlice line j k)
      scanLine fuel (pySliceFrom line (k + 1)) (addRefs acc refs)
    else
      some acc

/-- The `for line in f.readlines()` loop (line 121). -/
def scanLines (fuel : Nat) : List PyStr → List PyStr → Option (List PyStr)
  | [], acc => some acc
  | line :: rest, acc =>
    match scanLine fuel line acc with
    | none => none
    | some acc' => scanLines fuel rest acc'

/-- The `for tex_file in self.tex_files` loop (line 116); a file is its list of
lines (a missing file is simply skipped by the source, so it is modelled as
absent from the list). -/
def scanFiles (fuel : Nat) : List (List PyStr) → List PyStr → Option (List PyStr)
  | [], acc => some acc
  | file :: rest, acc =>
    match scanLines fuel file acc with
    | none => none
    | some acc' => scanFiles fuel rest acc'

/-- Python `sorted` on the bibcode set (line 140), lexicographic on code points. -/
def pySorted (l : List PyStr) : List PyStr := List.insertionSort (· ≤ ·) l

/-- Embeds `_extract_citations` (lines 101-142): collect bibcodes from all files, then
`self.bibcodes = sorted(self.bibcodes)`. -/
def extract_citations (fuel : Nat) (files : List (List PyStr)) : Option (List PyStr) :=
  (scanFiles fuel files []).map pySorted

/-- Embeds `self.max_query = 90` (line 95). -/
def max_query : Nat := 90

/-- The query dictionary built by `_prep_query` (lines 166-174). -/
structure ADSQuery where
  bibcode : List PyStr
  sortdir : PyStr
deriving DecidableEq

/-- Embeds `_prep_query` (lines 145-174): the slice `self.bibcodes[i:i+max_query]`
plus the fixed sort directive `'year desc'`. -/
def prep_query (bibcodes : List PyStr) (i : Nat) : ADSQuery :=
  { bibcode := (bibcodes.drop i).take max_query
    sortdir := pystr ("year desc") }

/-- The batches issued by `_query` (lines 192-195):
`n = len(self.bibcodes) // self.max_query + 1` requests, the `i`-th at offset
`i * max_query`. -/
def query_batches (bibcodes : List PyStr) : List ADSQuery :=
  (List.range (bibcodes.length / max_query + 1)).map
    (fun b => prep_query bibcodes (b * max_query))

/-- What `_check_missing` reports: the returned flag, the printed list of
missing bibcodes, and the bibcodes named in cross-check warnings. -/
structure CheckResult where
  success : Bool
  missing : List PyStr
  warnings : List PyStr
deriving DecidableEq

/-- Key extraction from an `@` header line (lines 277-278):
`i = line.find('{') + 1; bibcode = line[i:-1]`. -/
def headerKey (line : PyStr) : PyStr :=
  pySlice line (pyFindChar line '\x7b' 0 + 1) (-1)

/-- Body of the `for line in self.result.split('\n')` loop (lines 271-285):
skip empty lines and lines not starting with `@`; otherwise remove the header
key from the missing list, or warn if it was never requested. -/
def reconcileLine (st : List PyStr × List PyStr) (line : PyStr) : List PyStr × List PyStr :=
  match line with
  | [] => st
  | c :: _ =>
    if c = '@' then
      let b := headerKey line
      if b ∈ st.1 then (st.1.erase b, st.2) else (st.1, st.2 ++ [b])
    else st

/-- Embeds `_check_missing` (lines 254-292): full success exactly when
`self.n_retrieved == len(self.bibcodes)`; otherwise diff the requested list
against the `@` header keys of the accumulated result text. -/
def check_missing (bibcodes : List PyStr) (result : PyStr) (n_retrieved : Nat) : CheckResult :=
  if n_retrieved = bibcodes.length then
    { success := true, missing := [], warnings := [] }
  else
    let st := (pySplitChar '\n' result).foldl reconcileLine (bibcodes, [])
    { success := false, missing := st.1, warnings := st.2 }

/-- Outcome of the ADS-token check in `__init__`. -/
inductive TokenResult where
  | ok (t : PyStr)
  | valueError
deriving DecidableEq

/-- The token check of `Tex2BibConverter.__init__` (lines 84-90): an explicit
string argument wins; else the configured `ADS_TOKEN` if non-empty; else
`ValueError`.  (`ads_token` is `str` or `None` here, as the CLI supplies.) -/
def resolve_token (ads_token : Option PyStr) (conf_ADS_TOKEN : PyStr) : TokenResult :=
  match ads_token with
  | some t => .ok t
  | none => if conf_ADS_TOKEN.length > 0 then .ok conf_ADS_TOKEN else .valueError

/-! ## Helper lemmas about the string primitives -/

theorem startsWithStr_self_append (pat rest : PyStr) :
    startsWithStr pat (pat ++ rest) = true := by
  induction pat with
  | nil => rfl
  | cons a p ih => simp [startsWithStr, ih]

theorem findSubAux_marker (pre rest : PyStr) (hpre : '\\' ∉ pre) :
    findSubAux citeMarker (pre ++ (citeMarker ++ rest)) = some pre.length := by
  induction pre with
  | nil =>
    show findSubAux citeMarker (citeMarker ++ rest) = some 0
    rw [show citeMarker ++ rest = '\\' :: (['c', 'i', 't', 'e'] ++ rest) from rfl]
    rw [findSubAux]
    rw [show ('\\' :: (['c', 'i', 't', 'e'] ++ rest)) = citeMarker ++ rest from rfl]
    rw [startsWithStr_self_append]
    rfl
  | cons c pre ih =>
    have hc : c ≠ '\\' := fun h => hpre (h ▸ List.mem_cons_self c pre)
    have hns : startsWithStr citeMarker (c :: (pre ++ (citeMarker ++ rest))) = false := by
      have hcc : ('\\' : Char) ≠ c := Ne.symm hc
      simp [citeMarker, startsWithStr, hcc]
    rw [List.cons_append, findSubAux, hns]
    simp [ih (fun h => hpre (List.mem_cons_of_mem c h))]

theorem findCharAux_append (c : Char) (l1 l2 : PyStr) (h : c ∉ l1) :
    findCharAux c (l1 ++ l2) = (findCharAux c l2).map (· + l1.length) := by
  induction l1 with
  | nil => simp
  | cons a l1 ih =>
    have ha : a ≠ c := fun hh => h (hh ▸ List.mem_cons_self a l1)
    rw [List.cons_append, findCharAux, if_neg ha, ih (fun hh => h (List.mem_cons_of_mem a hh))]
    cases findCharAux c l2 with
    | none => rfl
    | some n => simp; omega

theorem pySplitChar_of_not_mem (c : Char) (l : PyStr) (h : c ∉ l) :
    pySplitChar c l = [l] := by
  induction l with
  | nil => rfl
  | cons a l ih =>
    have ha : a ≠ c := fun hh => h (hh ▸ List.mem_cons_self a l)
    rw [pySplitChar, if_neg ha, ih (fun hh => h (List.mem_cons_of_mem a hh))]

theorem lenL (pre body : PyStr) :
    (pre ++ (citeMarker ++ ('\x7b' :: (body ++ ['\x7d'])))).length
      = pre.length + body.length + 7 := by
  simp [citeMarker]
  omega

theorem scanLine_step (pre body : PyStr) (acc : List PyStr) (n : Nat)
    (hpre : '\\' ∉ pre) (hbody : '\x7d' ∉ body) :
    scanLine (n + 1) (pre ++ (citeMarker ++ ('\x7b' :: (body ++ ['\x7d'])))) acc
      = scanLine n [] (addRefs acc (pySplitChar ',' body)) := by
  have h1 : pyFindSub (pre ++ (citeMarker ++ ('\x7b' :: (body ++ ['\x7d'])))) citeMarker
      = (pre.length : Int) := by
    unfold pyFindSub
    rw [findSubAux_marker pre _ hpre]
  have hdrop : List.drop pre.length (pre ++ (citeMarker ++ ('\x7b' :: (body ++ ['\x7d']))))
      = citeMarker ++ ('\x7b' :: (body ++ ['\x7d'])) := List.drop_left' rfl
  have hfc1 : findCharAux '\x7b' (citeMarker ++ ('\x7b' :: (body ++ ['\x7d']))) = some 5 := by
    simp [citeMarker, findCharAux]
  have h3 : pyFindChar (pre ++ (citeMarker ++ ('\x7b' :: (body ++ ['\x7d'])))) '\x7b' pre.length
      = (pre.length : Int) + 5 := by
    unfold pyFindChar
    rw [hdrop, hfc1]
    norm_num
  have hfc2 : findCharAux '\x7d' (citeMarker ++ ('\x7b' :: (body ++ ['\x7d'])))
      = some (body.length + 6) := by
    have hinner : findCharAux '\x7d' (body ++ ['\x7d']) = some body.length := by
      rw [findCharAux_append _ _ _ hbody]
      simp [findCharAux]
    simp [citeMarker, findCharAux, hinner]
  have h4 : pyFindChar (pre ++ (citeMarker ++ ('\x7b' :: (body ++ ['\x7d'])))) '\x7d' pre.length
      = (pre.length : Int) + (body.length + 6) := by
    unfold pyFindChar
    rw [hdrop, hfc2]
    push_cast
    ring
  have h5 : pySlice (pre ++ (citeMarker ++ ('\x7b' :: (body ++ ['\x7d']))))
      ((pre.length : Int) + 5 + 1) ((pre.length : Int) + (body.length + 6)) = body := by
    unfold pySlice
    rw [lenL]
    have e1 : pyIdx (pre.length + body.length + 7) ((pre.length : Int) + 5 + 1)
        = pre.length + 6 := by
      unfold pyIdx
      rw [if_neg (by omega)]
      omega
    have e2 : pyIdx (pre.length + body.length + 7) ((pre.length : Int) + (body.length + 6))
        = pre.length + body.length + 6 := by
      unfold pyIdx
      rw [if_neg (by omega)]
      omega
    rw [e1, e2]
    have hsplit : (pre ++ (citeMarker ++ ('\x7b' :: (body ++ ['\x7d']))))
        = ((pre ++ citeMarker ++ ['\x7b']) ++ body) ++ ['\x7d'] := by
      simp
    rw [hsplit]
    rw [List.take_left' (by simp [citeMarker]; omega)]
    rw [List.drop_left' (by simp [citeMarker])]
  have h6 : pySliceFrom (pre ++ (citeMarker ++ ('\x7b' :: (body ++ ['\x7d']))))
      ((pre.length : Int) + (body.length + 6) + 1) = [] := by
    unfold pySliceFrom
    rw [lenL]
    have e3 : pyIdx (pre.length + body.length + 7) ((pre.length : Int) + (body.length + 6) + 1)
        = pre.length + body.length + 7 := by
      unfold pyIdx
      rw [if_neg (by omega)]
      omega
    rw [e3, show pre.length + body.length + 7 = (pre ++ (citeMarker ++ ('\x7b' :: (body ++ ['\x7d'])))).length from (lenL pre body).symm, List.drop_length]
  simp only [scanLine, h1]
  rw [if_pos (by omega : (pre.length : Int) > -1)]
  rw [show ((pre.length : Int)).toNat = pre.length from Int.toNat_natCast pre.length]
  rw [h3, h4, h5, h6]


theorem scanLine_done (n : Nat) (acc : List PyStr) :
    scanLine (n + 1) [] acc = some acc := rfl

/-- One well-formed citation occurrence ending the line: anything before the
marker (without a backslash), then `\cite{body}` with no `}` inside the body,
is scanned into `addRefs` of the comma-split body. -/
theorem scanLine_wf (pre body : PyStr) (acc : List PyStr) (n : Nat)
    (hpre : '\\' ∉ pre) (hbody : '\x7d' ∉ body) :
    scanLine (n + 2) (pre ++ (citeMarker ++ ('\x7b' :: (body ++ ['\x7d'])))) acc
      = some (addRefs acc (pySplitChar ',' body)) := by
  rw [scanLine_step pre body acc (n + 1) hpre hbody, scanLine_done]

theorem dropWhile_append_all (p : Char → Bool) (w l : PyStr) (h : ∀ a ∈ w, p a = true) :
    (w ++ l).dropWhile p = l.dropWhile p := by
  induction w with
  | nil => rfl
  | cons a w ih =>
    rw [List.cons_append, List.dropWhile_cons, if_pos (h a (List.mem_cons_self a w))]
    exact ih (fun b hb => h b (List.mem_cons_of_mem a hb))

theorem stripL_of_strip_eq (s : PyStr) (h : pyStrip s = s) : s.dropWhile pyWS = s := by
  have h1 : (s.dropWhile pyWS) <:+ s := List.dropWhile_suffix pyWS
  have h2 : ((s.dropWhile pyWS).reverse.dropWhile pyWS) <:+ (s.dropWhile pyWS).reverse :=
    List.dropWhile_suffix pyWS
  have l1 : (s.dropWhile pyWS).length ≤ s.length := h1.length_le
  have l2 : ((s.dropWhile pyWS).reverse.dropWhile pyWS).length ≤ (s.dropWhile pyWS).length := by
    have := h2.length_le
    simpa using this
  have l3 : (pyStrip s).length = s.length := by rw [h]
  have l4 : (pyStrip s).length = ((s.dropWhile pyWS).reverse.dropWhile pyWS).length := by
    simp [pyStrip]
  exact h1.eq_of_length (by omega)

theorem stripR_of_strip_eq (s : PyStr) (h : pyStrip s = s) :
    s.reverse.dropWhile pyWS = s.reverse := by
  have h0 := stripL_of_strip_eq s h
  have h1 : pyStrip s = (s.reverse.dropWhile pyWS).reverse := by rw [pyStrip, h0]
  rw [h] at h1
  calc s.reverse.dropWhile pyWS = ((s.reverse.dropWhile pyWS).reverse).reverse := by simp
  _ = s.reverse := by rw [← h1]

theorem head_not_ws (a : Char) (t : PyStr) (h : (a :: t).dropWhile pyWS = a :: t) :
    pyWS a = false := by
  cases hws : pyWS a with
  | false => rfl
  | true =>
    rw [List.dropWhile_cons, if_pos hws] at h
    have h1 := (List.dropWhile_suffix (l := t) pyWS).length_le
    have h2 : (t.dropWhile pyWS).length = t.length + 1 := by rw [h]; simp
    omega

theorem pyStrip_sandwich (w1 w2 s : PyStr)
    (hw1 : ∀ c ∈ w1, pyWS c = true) (hw2 : ∀ c ∈ w2, pyWS c = true)
    (hne : s ≠ []) (hst : pyStrip s = s) :
    pyStrip (w1 ++ s ++ w2) = s := by
  obtain ⟨a, t, rfl⟩ : ∃ a t, s = a :: t := by
    cases s with
    | nil => exact absurd rfl hne
    | cons a t => exact ⟨a, t, rfl⟩
  have hL := stripL_of_strip_eq _ hst
  have hR := stripR_of_strip_eq _ hst
  have ha : pyWS a = false := head_not_ws a t hL
  rw [pyStrip, List.append_assoc, dropWhile_append_all pyWS w1 _ hw1]
  have step2 : ((a :: t) ++ w2).dropWhile pyWS = (a :: t) ++ w2 := by
    rw [List.cons_append, List.dropWhile_cons, if_neg (by simp [ha])]
  rw [step2, List.reverse_append, dropWhile_append_all pyWS _ _ (by
    intro c hc
    exact hw2 c (List.mem_reverse.mp hc))]
  rw [hR]
  simp

theorem pyWS_cases (c : Char) (h : pyWS c = true) :
    c = ' ' ∨ c = '\t' ∨ c = '\n' ∨ c = '\r' ∨ c = '\x0b' ∨ c = '\x0c' := by
  simp [pyWS] at h
  tauto

theorem pyWS_ne_marks (c : Char) (h : pyWS c = true) :
    c ≠ ',' ∧ c ≠ '\x7d' ∧ c ≠ '\\' := by
  rcases pyWS_cases c h with h | h | h | h | h | h <;> subst h <;> refine ⟨by decide, by decide, by decide⟩

theorem addRefs_one (acc : List PyStr) (b s : PyStr) (hb : pyStrip b = s) (hne : s ≠ []) :
    addRefs acc [b] = setAdd acc (replaceAA s) := by
  simp only [addRefs, hb]
  rw [if_neg hne]

/-- A single well-formed citation line `pre ++ '\cite{' ++ w1 ++ s ++ w2 ++ '}'`
(whitespace `w1`/`w2` around a trimmed, comma-free, brace-free identifier `s`,
no backslash before the marker) extracts to exactly the substituted identifier. -/
theorem extract_one_wf (pre w1 w2 s : PyStr)
    (hpre : '\\' ∉ pre)
    (hw1 : ∀ c ∈ w1, pyWS c = true) (hw2 : ∀ c ∈ w2, pyWS c = true)
    (hne : s ≠ []) (hst : pyStrip s = s) (hc : ',' ∉ s) (hbr : '\x7d' ∉ s) :
    extract_citations 2 [[pre ++ (citeMarker ++ ('\x7b' :: ((w1 ++ s ++ w2) ++ ['\x7d'])))]]
      = some [replaceAA s] := by
  have hbody : '\x7d' ∉ w1 ++ s ++ w2 := by
    intro hmem
    rcases List.mem_append.mp hmem with hmem | hmem
    · rcases List.mem_append.mp hmem with hmem | hmem
      · exact (pyWS_ne_marks _ (hw1 _ hmem)).2.1 rfl
      · exact hbr hmem
    · exact (pyWS_ne_marks _ (hw2 _ hmem)).2.1 rfl
  have hcomma : ',' ∉ w1 ++ s ++ w2 := by
    intro hmem
    rcases List.mem_append.mp hmem with hmem | hmem
    · rcases List.mem_append.mp hmem with hmem | hmem
      · exact (pyWS_ne_marks _ (hw1 _ hmem)).1 rfl
      · exact hc hmem
    · exact (pyWS_ne_marks _ (hw2 _ hmem)).1 rfl
  have hscan := scanLine_wf pre (w1 ++ s ++ w2) [] 0 hpre hbody
  rw [pySplitChar_of_not_mem _ _ hcomma] at hscan
  rw [addRefs_one [] _ s (pyStrip_sandwich w1 w2 s hw1 hw2 hne hst) hne] at hscan
  unfold extract_citations scanFiles scanLines
  rw [hscan]
  rfl

theorem setAdd_nodup (s : List PyStr) (x : PyStr) (h : s.Nodup) : (setAdd s x).Nodup := by
  by_cases hx : x ∈ s
  · rw [setAdd, if_pos hx]; exact h
  · rw [setAdd, if_neg hx]
    exact h.append (List.nodup_singleton x) (List.disjoint_singleton.mpr hx)

theorem addRefs_nodup (refs : List PyStr) (acc : List PyStr) (h : acc.Nodup) :
    (addRefs acc refs).Nodup := by
  induction refs generalizing acc with
  | nil => exact h
  | cons r rest ih =>
    simp only [addRefs]
    by_cases hr : pyStrip r = []
    · rw [if_pos hr]; exact ih acc h
    · rw [if_neg hr]; exact ih _ (setAdd_nodup acc _ h)

theorem scanLine_nodup (fuel : Nat) (line : PyStr) (acc out : List PyStr)
    (h : scanLine fuel line acc = some out) (hacc : acc.Nodup) : out.Nodup := by
  induction fuel generalizing line acc with
  | zero => exact absurd h (by simp [scanLine])
  | succ n ih =>
    simp only [scanLine] at h
    split at h
    · exact ih _ _ h (addRefs_nodup _ acc hacc)
    · cases h; exact hacc

theorem scanLines_nodup (fuel : Nat) (lines : List PyStr) (acc out : List PyStr)
    (h : scanLines fuel lines acc = some out) (hacc : acc.Nodup) : out.Nodup := by
  induction lines generalizing acc with
  | nil => cases h; exact hacc
  | cons line rest ih =>
    simp only [scanLines] at h
    cases hs : scanLine fuel line acc with
    | none => rw [hs] at h; cases h
    | some acc' => rw [hs] at h; exact ih _ h (scanLine_nodup fuel line acc acc' hs hacc)

theorem scanFiles_nodup (fuel : Nat) (files : List (List PyStr)) (acc out : List PyStr)
    (h : scanFiles fuel files acc = some out) (hacc : acc.Nodup) : out.Nodup := by
  induction files generalizing acc with
  | nil => cases h; exact hacc
  | cons file rest ih =>
    simp only [scanFiles] at h
    cases hs : scanLines fuel file acc with
    | none => rw [hs] at h; cases h
    | some acc' => rw [hs] at h; exact ih _ h (scanLines_nodup fuel file acc acc' hs hacc)

theorem flatMap_chunks (l : List PyStr) (N : Nat) (k : Nat) :
    (List.range k).flatMap (fun b => (l.drop (b * N)).take N) = l.take (k * N) := by
  induction k with
  | zero => simp
  | succ k ih =>
    rw [List.range_succ, List.flatMap_append, ih]
    have hone : (List.flatMap [k] fun b => (l.drop (b * N)).take N)
        = (l.drop (k * N)).take N := by simp
    rw [hone, ← List.take_add]
    congr 1
    ring

/-! ## Claim theorems -/

/-- Claim C1 is false on the code: line 132 is `ref.replace('AA', 'A&A')`, a
substring replacement, so the token `SmithAA2020` is not inserted unchanged. -/
theorem c1_counterexample :
    extract_citations 2 [[pystr ("\\cite\x7bSmithAA2020\x7d")]] = some [pystr ("SmithA&A2020")] ∧
    extract_citations 2 [[pystr ("\\cite\x7bSmithAA2020\x7d")]] ≠ some [pystr ("SmithAA2020")] :=
  ⟨by decide, by decide⟩

/-- Claim C1 (amended): the `AA` substitution is applied to every comma-separated
token after trimming as a substring replacement: every occurrence of `AA` inside
the token is expanded, embedded occurrences included, so a token `t` is inserted
as `replaceAA t`. -/
theorem c1_amended_substitution_on_substrings (w1 w2 s : PyStr)
    (hw1 : ∀ c ∈ w1, pyWS c = true) (hw2 : ∀ c ∈ w2, pyWS c = true)
    (hne : s ≠ []) (hst : pyStrip s = s) (hcomma : ',' ∉ s) (hbr : '\x7d' ∉ s) :
    extract_citations 2 [[citeMarker ++ ('\x7b' :: ((w1 ++ s ++ w2) ++ ['\x7d']))]]
      = some [replaceAA s] ∧
    replaceAA (pystr ("SmithAA2020")) = pystr ("SmithA&A2020") :=
  ⟨extract_one_wf [] w1 w2 s (by decide) hw1 hw2 hne hst hcomma hbr, by decide⟩

theorem c1_amended_substitution_on_substrings_witness :
    extract_citations 2 [[citeMarker ++ ('\x7b' :: (([' '] ++ pystr ("SmithAA2020") ++ [' ']) ++ ['\x7d']))]]
      = some [pystr ("SmithA&A2020")] := by
  have h := c1_amended_substitution_on_substrings [' '] [' '] (pystr ("SmithAA2020"))
    (by decide) (by decide) (by decide) (by decide) (by decide) (by decide)
  rw [h.1]
  decide

/-- Claim C2 is false on the code: `_query` computes `n = len // max_query + 1`,
so for an empty identifier list one (empty) batch is still issued, not zero. -/
theorem c2_counterexample :
    (query_batches []).length = 1 ∧ (query_batches []).length ≠ 0 :=
  ⟨by decide, by decide⟩

/-- Claim C2 (amended): the query stage issues exactly `M // N + 1` sequential
batch requests for `M` identifiers and batch size `N = 90`; this equals
`ceil(M/N)` when `N` does not divide `M`, and when `N` divides `M` (including
`M = 0`) one extra, empty trailing batch is issued. -/
theorem c2_amended_batch_count (l : List PyStr) :
    (query_batches l).length = l.length / max_query + 1 ∧
    (l.length % max_query ≠ 0 →
      (query_batches l).length = (l.length + max_query - 1) / max_query) ∧
    (l.length % max_query = 0 → ∃ q ∈ query_batches l, q.bibcode = []) := by
  refine ⟨by simp [query_batches], ?_, ?_⟩
  · intro h
    simp only [query_batches, List.length_map, List.length_range, max_query] at *
    omega
  · intro h
    refine ⟨prep_query l (l.length / max_query * max_query), ?_, ?_⟩
    · exact List.mem_map_of_mem _ (List.mem_range.mpr (Nat.lt_succ_self _))
    · show (l.drop (l.length / max_query * max_query)).take max_query = []
      rw [Nat.div_mul_cancel (Nat.dvd_of_mod_eq_zero h), List.drop_length]
      rfl

theorem c2_amended_batch_count_witness :
    (query_batches [pystr ("a")]).length = [pystr ("a")].length / max_query + 1 ∧
    (query_batches [pystr ("a")]).length = ([pystr ("a")].length + max_query - 1) / max_query :=
  ⟨(c2_amended_batch_count [pystr ("a")]).1,
   (c2_amended_batch_count [pystr ("a")]).2.1 (by decide)⟩

/-- Claim C3 names the intended behaviour but the code violates it: on a line
that contains the marker but no closing brace, `k = -1`, so `line[k+1:]` is the
whole line again and the `while` loop never terminates (no fuel suffices);
extraction does not proceed to the next line. -/
theorem c3_missing_brace_never_terminates :
    (∀ fuel acc, scanLine fuel (pystr ("\\cite\x7bX")) acc = none) ∧
    (∀ fuel, extract_citations fuel [[pystr ("\\cite\x7bX")]] = none) := by
  have key : ∀ fuel acc, scanLine fuel (pystr ("\\cite\x7bX")) acc = none := by
    intro fuel
    induction fuel with
    | zero => intro acc; rfl
    | succ n ih =>
      intro acc
      rw [show scanLine (n + 1) (pystr ("\\cite\x7bX")) acc
            = scanLine n (pystr ("\\cite\x7bX")) acc from rfl]
      exact ih acc
  refine ⟨key, fun fuel => ?_⟩
  unfold extract_citations scanFiles scanLines
  rw [key fuel []]
  rfl

/-- Claim C4 is false on the code: `_check_missing` decides the flag by count
alone. Here the single requested identifier `X` is the `@`-header key of the
accumulated text, yet with `n_retrieved = 0` the function returns `False`. -/
theorem c4_counterexample :
    headerKey (pystr ("@\x7bX\x7d")) = pystr ("X") ∧
    (check_missing [pystr ("X")] (pystr ("@\x7bX\x7d")) 0).missing = [] ∧
    (check_missing [pystr ("X")] (pystr ("@\x7bX\x7d")) 0).success = false :=
  ⟨by decide, by decide, by decide⟩

/-- Claim C4 (amended): reconciliation reports full success (returns True)
exactly when the retrieved count equals the requested identifier count — the
`@`-headers are not consulted for the flag — and in that case the
missing-identifier list is empty. -/
theorem c4_amended_success_iff_counts (b : List PyStr) (r : PyStr) (n : Nat) :
    ((check_missing b r n).success = true ↔ n = b.length) ∧
    (n = b.length → (check_missing b r n).missing = []) := by
  unfold check_missing
  by_cases h : n = b.length
  · rw [if_pos h]; simp [h]
  · rw [if_neg h]; simp [h]

theorem c4_amended_success_iff_counts_witness :
    (check_missing [pystr ("X")] [] 1).success = true ∧
    (check_missing [pystr ("X")] [] 1).missing = [] :=
  ⟨(c4_amended_success_iff_counts [pystr ("X")] [] 1).1.mpr (by decide),
   (c4_amended_success_iff_counts [pystr ("X")] [] 1).2 (by decide)⟩

/-- Claim C5: when the counts differ and the accumulated text has one
`@{known}` line and one `@{unknown}` line, with `known` requested and `unknown`
never requested, the missing list is the requested list minus `known` and the
cross-check warning names exactly `unknown`. -/
theorem c5_cross_check_warning (bs : List PyStr) (n : Nat)
    (hk : pystr ("known") ∈ bs) (hu : pystr ("unknown") ∉ bs) (hn : n ≠ bs.length) :
    check_missing bs (pystr ("@\x7bknown\x7d\n@\x7bunknown\x7d")) n
      = { success := false, missing := bs.erase (pystr ("known")),
          warnings := [pystr ("unknown")] } := by
  have hmem2 : pystr ("unknown") ∉ bs.erase (pystr ("known")) :=
    fun hmem => hu (List.erase_subset _ _ hmem)
  unfold check_missing
  rw [if_neg hn]
  have hsplit : pySplitChar '\n' (pystr ("@\x7bknown\x7d\n@\x7bunknown\x7d"))
      = [pystr ("@\x7bknown\x7d"), pystr ("@\x7bunknown\x7d")] := by decide
  rw [hsplit, List.foldl_cons, List.foldl_cons, List.foldl_nil]
  have s1 : reconcileLine (bs, ([] : List PyStr)) (pystr ("@\x7bknown\x7d"))
      = if pystr ("known") ∈ bs then (bs.erase (pystr ("known")), ([] : List PyStr))
        else (bs, [pystr ("known")]) := rfl
  rw [s1, if_pos hk]
  have s2 : reconcileLine (bs.erase (pystr ("known")), ([] : List PyStr))
        (pystr ("@\x7bunknown\x7d"))
      = if pystr ("unknown") ∈ bs.erase (pystr ("known"))
        then ((bs.erase (pystr ("known"))).erase (pystr ("unknown")), ([] : List PyStr))
        else (bs.erase (pystr ("known")), [pystr ("unknown")]) := rfl
  rw [s2, if_neg hmem2]

theorem c5_cross_check_warning_witness :
    check_missing [pystr ("known"), pystr ("zz")] (pystr ("@\x7bknown\x7d\n@\x7bunknown\x7d")) 0
      = { success := false, missing := [pystr ("zz")], warnings := [pystr ("unknown")] } := by
  rw [c5_cross_check_warning [pystr ("known"), pystr ("zz")] 0 (by decide) (by decide) (by decide)]
  decide

/-- Claim C6: each batch at offset `i` is exactly the slice of up to `max_query`
identifiers starting at `i`, and the concatenation of all issued batches is the
full identifier list itself (so order is preserved, nothing is duplicated, and
the batches are a function of the list alone). -/
theorem c6_batches_cover_list (l : List PyStr) :
    (∀ i : Nat, (prep_query l i).bibcode = (l.drop i).take max_query) ∧
    (query_batches l).flatMap ADSQuery.bibcode = l := by
  refine ⟨fun i => rfl, ?_⟩
  unfold query_batches
  rw [List.flatMap_map]
  simp only [prep_query]
  rw [flatMap_chunks]
  exact List.take_of_length_le (by simp [max_query]; omega)

/-- Claim C7: whenever extraction terminates, its output is lexicographically
sorted and duplicate-free, and extraction is deterministic: the same input
yields the same output. -/
theorem c7_extraction_sorted_nodup (fuel : Nat) (files : List (List PyStr)) (out : List PyStr)
    (h : extract_citations fuel files = some out) :
    List.Sorted (· ≤ ·) out ∧ out.Nodup ∧
      ∀ out', extract_citations fuel files = some out' → out' = out := by
  obtain ⟨c, hc, hout⟩ : ∃ c, scanFiles fuel files [] = some c ∧ out = pySorted c := by
    unfold extract_citations at h
    cases hsf : scanFiles fuel files [] with
    | none => rw [hsf] at h; exact absurd h (by simp)
    | some c =>
      rw [hsf] at h
      exact ⟨c, rfl, by simpa using h.symm⟩
  subst hout
  refine ⟨List.sorted_insertionSort _ _, ?_, ?_⟩
  · exact ((List.perm_insertionSort (· ≤ ·) c).nodup_iff).mpr
      (scanFiles_nodup fuel files [] c hc List.nodup_nil)
  · intro out' h'
    unfold extract_citations at h'
    rw [hc] at h'
    simpa using h'.symm

theorem c7_extraction_sorted_nodup_witness :
    List.Sorted (· ≤ ·) [pystr ("a"), pystr ("b")] ∧ ([pystr ("a"), pystr ("b")] : List PyStr).Nodup := by
  have h := c7_extraction_sorted_nodup 2 [[pystr ("\\cite\x7bb,a,b\x7d")]]
    [pystr ("a"), pystr ("b")] (by decide)
  exact ⟨h.1, h.2.1⟩

/-- Claim C8 is false as stated: an identifier containing `AA` is not recovered
merely trimmed — the substitution also rewrites it.  `' SmithAA2020 '` inside
the braces comes back as `SmithA&A2020`, not as the trimmed `SmithAA2020`. -/
theorem c8_counterexample :
    extract_citations 2 [[pystr ("\\cite\x7b SmithAA2020 \x7d")]] = some [pystr ("SmithA&A2020")] ∧
    extract_citations 2 [[pystr ("\\cite\x7b SmithAA2020 \x7d")]] ≠ some [pystr ("SmithAA2020")] :=
  ⟨by decide, by decide⟩

/-- Claim C8 (amended): an identifier on which the `AA` substitution acts
trivially, written inside the braces with leading/trailing whitespace, is
recovered with exactly that whitespace trimmed; an empty brace body contributes
nothing; a comma-separated token that is empty after trimming contributes
nothing. -/
theorem c8_amended_roundtrip_trimmed (w1 w2 s : PyStr)
    (hw1 : ∀ c ∈ w1, pyWS c = true) (hw2 : ∀ c ∈ w2, pyWS c = true)
    (hne : s ≠ []) (hst : pyStrip s = s) (hcomma : ',' ∉ s) (hbr : '\x7d' ∉ s)
    (hAA : replaceAA s = s) :
    extract_citations 2 [[citeMarker ++ ('\x7b' :: ((w1 ++ s ++ w2) ++ ['\x7d']))]]
      = some [s] ∧
    extract_citations 2 [[citeMarker ++ ['\x7b', '\x7d']]] = some [] ∧
    extract_citations 2 [[pystr ("\\cite\x7b , X\x7d")]] = some [pystr ("X")] := by
  refine ⟨?_, by decide, by decide⟩
  have h := extract_one_wf [] w1 w2 s (by decide) hw1 hw2 hne hst hcomma hbr
  rw [hAA] at h
  exact h

theorem c8_amended_roundtrip_trimmed_witness :
    extract_citations 2 [[citeMarker ++ ('\x7b' :: (([' '] ++ pystr ("X2020") ++ [' ', ' ']) ++ ['\x7d']))]]
      = some [pystr ("X2020")] :=
  (c8_amended_roundtrip_trimmed [' '] [' ', ' '] (pystr ("X2020"))
    (by decide) (by decide) (by decide) (by decide) (by decide) (by decide) (by decide)).1

/-- Claim C9: the converter's token check fails with `ValueError` exactly when
no explicit string token is given and the configured value is empty, and an
explicit token always takes precedence over the configured one. -/
theorem c9_token_resolution (tok : Option PyStr) (conf : PyStr) :
    (resolve_token tok conf = TokenResult.valueError ↔ tok = none ∧ conf = []) ∧
    (∀ t, tok = some t → resolve_token tok conf = TokenResult.ok t) := by
  constructor
  · cases tok with
    | some t => simp [resolve_token]
    | none =>
      simp only [resolve_token]
      by_cases h : conf = []
      · subst h; simp
      · rw [if_pos (List.length_pos.mpr h)]
        simp [h]
  · intro t ht
    subst ht
    rfl

theorem c9_token_resolution_witness :
    resolve_token none [] = TokenResult.valueError ∧
    resolve_token (some (pystr ("tok"))) (pystr ("conf")) = TokenResult.ok (pystr ("tok")) :=
  ⟨(c9_token_resolution none []).1.mpr ⟨rfl, rfl⟩,
   (c9_token_resolution (some (pystr ("tok"))) (pystr ("conf"))).2 _ rfl⟩

/-- Claim C10: extraction performs no comment handling: prefixing a well-formed
citation occurrence with `'% '` changes nothing; concretely the fully
commented-out line `% \cite{X}` still contributes `X`, and `X` is then part of
a query batch. -/
theorem c10_no_comment_handling :
    (∀ (body : PyStr) (acc : List PyStr) (fuel : Nat), '\x7d' ∉ body →
      scanLine fuel (['%', ' '] ++ (citeMarker ++ ('\x7b' :: (body ++ ['\x7d'])))) acc
        = scanLine fuel (citeMarker ++ ('\x7b' :: (body ++ ['\x7d']))) acc) ∧
    extract_citations 2 [[pystr ("% \\cite\x7bX\x7d")]] = some [pystr ("X")] ∧
    pystr ("X") ∈ (query_batches [pystr ("X")]).flatMap ADSQuery.bibcode := by
  refine ⟨?_, by decide, by decide⟩
  intro body acc fuel hbody
  cases fuel with
  | zero => rfl
  | succ n =>
    rw [scanLine_step ['%', ' '] body acc n (by decide) hbody]
    rw [show citeMarker ++ ('\x7b' :: (body ++ ['\x7d']))
          = [] ++ (citeMarker ++ ('\x7b' :: (body ++ ['\x7d']))) from rfl]
    rw [scanLine_step [] body acc n (by decide) hbody]

theorem c10_no_comment_handling_witness :
    scanLine 2 (['%', ' '] ++ (citeMarker ++ ('\x7b' :: (pystr ("X") ++ ['\x7d'])))) []
      = scanLine 2 (citeMarker ++ ('\x7b' :: (pystr ("X") ++ ['\x7d']))) [] :=
  (c10_no_comment_handling).1 (pystr ("X")) [] 2 (by decide)
